import Mathlib

/-!
Shallow embedding of the rolling-hash delta tool (rsync-style signature /
diff generator). Machine integers (`u32`) are modelled as `Nat` with explicit
reduction modulo `2 ^ 32` wherever the Rust code performs wrapping arithmetic;
byte buffers are `List Nat`; fallible code (slice indexing that can panic)
returns `Option`.
-/

/-- The modulus used by the weak rolling hash (`RollingWindow::LARGE_PRIME_MOD`). -/
def LARGE_PRIME_MOD : Nat := 21191

/-- The size of the `u32` value space; Rust wrapping arithmetic is arithmetic
modulo this constant. -/
def U32 : Nat := 4294967296

/-- `u32::wrapping_add`. -/
def wadd (x y : Nat) : Nat := (x + y) % U32

/-- `u32::wrapping_sub`. -/
def wsub (x y : Nat) : Nat := (x % U32 + (U32 - y % U32)) % U32

/-- `u32` multiplication (wraps in release builds). -/
def wmul (x y : Nat) : Nat := (x * y) % U32

/-- State of the weak rolling checksum (`RollingWindow` in
`src/handlers/window_checksum.rs`). -/
structure RollingWindow where
  block_sum : Nat
  all_blocks_sum : Nat
  window_size : Nat
deriving DecidableEq

/-- `RollingWindow::generate` — the fresh zero state. -/
def RollingWindow.generate : RollingWindow := ⟨0, 0, 0⟩

/-- `RollingWindow::sha256_digest`: `block_sum + all_blocks_sum * LARGE_PRIME_MOD`
in `u32` arithmetic. -/
def sha256_digest (s : RollingWindow) : Nat :=
  wadd s.block_sum (wmul s.all_blocks_sum LARGE_PRIME_MOD)

/-- The `block_size` accumulator of `add_bytes_at_end`: plain sum of the bytes
in `u32` arithmetic. -/
def wsum (buf : List Nat) : Nat := buf.foldl (fun acc b => wadd acc b) 0

/-- The `all_blocks_size` accumulator of `add_bytes_at_end`:
`Σ byte[i] * (len - i)` in `u32` arithmetic. -/
def wwsum (buf : List Nat) : Nat :=
  buf.enum.foldl (fun acc ib => wadd acc (wmul ib.2 (wsub (buf.length % U32) ib.1))) 0

/-- `RollingWindow::add_bytes_at_end`. -/
def add_bytes_at_end (s : RollingWindow) (byte_buf : List Nat) : RollingWindow :=
  { block_sum := (wadd s.block_sum (wsum byte_buf)) % LARGE_PRIME_MOD
    all_blocks_sum := (wadd s.all_blocks_sum (wwsum byte_buf)) % LARGE_PRIME_MOD
    window_size := (wadd s.window_size (byte_buf.length % U32)) % LARGE_PRIME_MOD }

/-- `RollingWindow::roll_window`: drop `prev` at the front, optionally append
`next`; `all_blocks_sum` is updated with the already-updated `block_sum`, and
`window_size` is decremented (wrapping) exactly when `next` is absent. -/
def roll_window (s : RollingWindow) (prev : Nat) (next : Option Nat) : RollingWindow :=
  let new_block_sum := (wadd (wsub s.block_sum prev) (next.getD 0)) % LARGE_PRIME_MOD
  { block_sum := new_block_sum
    all_blocks_sum :=
      (wadd (wsub s.all_blocks_sum (wmul s.window_size prev)) new_block_sum) % LARGE_PRIME_MOD
    window_size := if next.isNone then wsub s.window_size 1 else s.window_size }

/-- `rolling_window_checksum`: weak hash of a chunk computed from a fresh state. -/
def rolling_window_checksum (chunk : List Nat) : Nat :=
  sha256_digest (add_bytes_at_end RollingWindow.generate chunk)

/-- States reachable from `RollingWindow::generate` by any sequence of
`add_bytes_at_end` and `roll_window` operations. -/
inductive Reachable : RollingWindow → Prop where
  | generate : Reachable RollingWindow.generate
  | add (s : RollingWindow) (buf : List Nat) : Reachable s → Reachable (add_bytes_at_end s buf)
  | roll (s : RollingWindow) (prev : Nat) (next : Option Nat) :
      Reachable s → Reachable (roll_window s prev next)

/-- Modelled from the spec: the strong hash (`chunk_sha256_hash`, SHA-256 from
the external `hmac_sha256` crate, whose code is not part of this repository's
sources) is modelled as an abstract function from byte buffers to digests.
The spec only requires a standard byte-accurate SHA-256 and relies on its
collision resistance, so theorems that depend on the strong hash either hold
for every such function or assume its injectivity (collision-freeness). -/
def StrongHash : Type := List Nat → List Nat

/-- A `(index, strong hash)` record of the signature table
(`BlockChunkHashes` in `src/handlers/signature.rs`). -/
structure BlockChunkHashes where
  index : Nat
  hash : List Nat
deriving DecidableEq

/-- The signature of the old file (`FileChunkSignature`): the block size plus
the weak-hash-keyed table. The `HashMap` is modelled as an association list;
the source only ever uses `get` and `entry(..).or_insert(..).push(..)`, so
insertion order of the buckets is irrelevant and bucket contents preserve
insertion order, exactly as the assoc list does. -/
structure FileChunkSignature where
  block_chunk_size : Nat
  checksum_map : List (Nat × List BlockChunkHashes)
deriving DecidableEq

/-- `FileChunkSignature::block_chunk_hashes`: `checksum_map.get(key)`. -/
def block_chunk_hashes (sig : FileChunkSignature) (key : Nat) : Option (List BlockChunkHashes) :=
  (sig.checksum_map.find? (fun e => e.1 == key)).map (fun e => e.2)

/-- `checksum_map.entry(key).or_insert_with(Vec::new).push(bh)`. -/
def insertRecord (m : List (Nat × List BlockChunkHashes)) (key : Nat) (bh : BlockChunkHashes) :
    List (Nat × List BlockChunkHashes) :=
  match m with
  | [] => [(key, [bh])]
  | (k, l) :: rest =>
    if k = key then (k, l ++ [bh]) :: rest else (k, l) :: insertRecord rest key bh

/-- `pointer_at_last_chunk`. -/
def pointer_at_last_chunk (chunk_len buf_len : Nat) : Bool := chunk_len == buf_len

/-- The loop of `get_signature`. The source selects the current block as
`&buffer[..buffer_length]` when `chunk_size < buffer_length` (the whole
remaining buffer) and `&buffer[..chunk_size]` otherwise — the latter slice
panics when `chunk_size > buffer_length`, which this embedding renders as
`none`. -/
def get_signature_loop (sha256 : StrongHash) (block_size : Nat) (buffer : List Nat)
    (chunk_index : Nat) (acc : List (Nat × List BlockChunkHashes)) :
    Option (List (Nat × List BlockChunkHashes)) :=
  if _h1 : block_size < buffer.length then
    let block_chunk := buffer.take buffer.length
    if _h2 : block_chunk.length = 0 then some acc
    else
      let acc2 := insertRecord acc (rolling_window_checksum block_chunk)
        ⟨chunk_index, sha256 block_chunk⟩
      if pointer_at_last_chunk block_chunk.length buffer.length then some acc2
      else get_signature_loop sha256 block_size (buffer.drop block_chunk.length)
        (chunk_index + 1) acc2
  else
    if _h3 : block_size ≤ buffer.length then
      let block_chunk := buffer.take block_size
      if _h4 : block_chunk.length = 0 then some acc
      else
        let acc2 := insertRecord acc (rolling_window_checksum block_chunk)
          ⟨chunk_index, sha256 block_chunk⟩
        if pointer_at_last_chunk block_chunk.length buffer.length then some acc2
        else get_signature_loop sha256 block_size (buffer.drop block_chunk.length)
          (chunk_index + 1) acc2
    else none
termination_by buffer.length
decreasing_by
  · unfold block_chunk at *
    simp only [pointer_at_last_chunk, beq_iff_eq, List.length_take, List.length_drop] at *
    omega
  · unfold block_chunk at *
    simp only [pointer_at_last_chunk, beq_iff_eq, List.length_take, List.length_drop] at *
    omega

/-- `get_signature`: build the signature for a buffer and block size; `none`
models the panic on the out-of-range slice. -/
def get_signature (sha256 : StrongHash) (buffer : List Nat) (block_size : Nat) :
    Option FileChunkSignature :=
  (get_signature_loop sha256 block_size buffer 0 []).map
    (fun m => { block_chunk_size := block_size, checksum_map := m })

/-- The delta records (`VerifyMatch` in `src/handlers/file_diff.rs`). -/
inductive VerifyMatch where
  | Match : Nat → VerifyMatch
  | NoMatch : List Nat → VerifyMatch
deriving DecidableEq

/-- `match_index_and_checksum`: look the weak hash up in the table and return
the first record whose strong hash matches that of the chunk. -/
def match_index_and_checksum (sha256 : StrongHash) (sig : FileChunkSignature)
    (index_hash : Nat) (chunk : List Nat) : Option BlockChunkHashes :=
  match block_chunk_hashes sig index_hash with
  | some hashes => hashes.find? (fun h => h.hash == sha256 chunk)
  | none => none

/-- The inner rolling-search loop of `generate_diff`, with explicit fuel (the
Rust code is an unbounded `loop`; one unit of fuel per iteration). The result
is `none` on fuel exhaustion or on the (unreachable) panic of the
`new_file_buffer[chunk_size]` index; otherwise the emitted records together
with the remaining buffer. -/
def rolling_search (sha256 : StrongHash) (sig : FileChunkSignature) (chunk_size : Nat) :
    Nat → RollingWindow → Nat → List Nat → List Nat →
    Option (List VerifyMatch × List Nat)
  | 0, _, _, _, _ => none
  | fuel + 1, rolling_sum, actual_chunk_size, buf, diff_bytes =>
    let nextRes : Option (Option Nat) :=
      if pointer_at_last_chunk actual_chunk_size buf.length then some none
      else
        match buf[chunk_size]? with
        | some b => some (some b)
        | none => none
    match nextRes with
    | none => none
    | some next =>
      match buf with
      | prev :: buf1 =>
        let diff_bytes2 := diff_bytes ++ [prev]
        let rolling2 := roll_window rolling_sum prev next
        let index_hash := sha256_digest rolling2
        let chunk := if chunk_size < buf1.length then buf1.take chunk_size
          else buf1.take buf1.length
        let acs2 := chunk.length
        match match_index_and_checksum sha256 sig index_hash chunk with
        | some hb =>
          some ([VerifyMatch.NoMatch diff_bytes2, VerifyMatch.Match hb.index], buf1.drop acs2)
        | none => rolling_search sha256 sig chunk_size fuel rolling2 acs2 buf1 diff_bytes2
      | [] =>
        if diff_bytes.isEmpty then some ([], [])
        else some ([VerifyMatch.NoMatch diff_bytes], [])

/-- The outer loop of `generate_diff`, with explicit fuel (one unit per outer
iteration). The inner rolling loop removes at least one byte per iteration, so
it is given `buf.length + 1` units. -/
def generate_diff_loop (sha256 : StrongHash) (sig : FileChunkSignature) (chunk_size : Nat) :
    Nat → List Nat → Option (List VerifyMatch)
  | 0, _ => none
  | fuel + 1, buf =>
    let chunk := if chunk_size ≤ buf.length then buf.take chunk_size else buf.take buf.length
    let actual_chunk_size := chunk.length
    if actual_chunk_size = 0 then some []
    else
      let rolling_sum := add_bytes_at_end RollingWindow.generate chunk
      let index_hash := sha256_digest rolling_sum
      match match_index_and_checksum sha256 sig index_hash chunk with
      | some hb =>
        if pointer_at_last_chunk actual_chunk_size buf.length then
          some [VerifyMatch.Match hb.index]
        else
          match generate_diff_loop sha256 sig chunk_size fuel (buf.drop actual_chunk_size) with
          | some recs => some (VerifyMatch.Match hb.index :: recs)
          | none => none
      | none =>
        match rolling_search sha256 sig chunk_size (buf.length + 1) rolling_sum
          actual_chunk_size buf [] with
        | some (recs, buf2) =>
          match generate_diff_loop sha256 sig chunk_size fuel buf2 with
          | some recs2 => some (recs ++ recs2)
          | none => none
        | none => none

/-- `generate_diff`: run the outer loop with sufficient fuel (`|B| + 1` outer
iterations always suffice, as proved below). -/
def generate_diff (sha256 : StrongHash) (new_file_buffer : List Nat)
    (sig : FileChunkSignature) (chunk_size : Nat) : List VerifyMatch :=
  (generate_diff_loop sha256 sig chunk_size (new_file_buffer.length + 1) new_file_buffer).getD []

/-- Block `i` of the old file per the spec: the bytes
`A[block_size * i : block_size * (i + 1)]`. -/
def block_bytes (A : List Nat) (block_size i : Nat) : List Nat :=
  (A.drop (block_size * i)).take block_size

/-- Expansion of a single delta record against the old file. -/
def expandRecord (A : List Nat) (block_size : Nat) : VerifyMatch → List Nat
  | VerifyMatch.Match i => block_bytes A block_size i
  | VerifyMatch.NoMatch l => l

/-- Expansion of a delta: concatenation, left to right, of the expansion of
each record. -/
def expandDelta (A : List Nat) (block_size : Nat) (recs : List VerifyMatch) : List Nat :=
  (recs.map (expandRecord A block_size)).flatten

/-- All `index` values recorded across the whole signature table. -/
def sig_indices (sig : FileChunkSignature) : List Nat :=
  (sig.checksum_map.map (fun e => e.2.map (fun bh => bh.index))).flatten

/-- The property linking an expansion function `E` to the signature probe:
whenever `match_index_and_checksum` reports a hit for a window of length at
most the block size, expanding the emitted `Match` record reproduces exactly
the bytes of that window. Delta soundness holds for any expansion function
with this property (plus literal transparency). -/
def MatchesE (sha256 : StrongHash) (sig : FileChunkSignature) (chunk_size : Nat)
    (E : VerifyMatch → List Nat) : Prop :=
  ∀ (key : Nat) (chunk : List Nat) (hb : BlockChunkHashes), chunk.length ≤ chunk_size →
    match_index_and_checksum sha256 sig key chunk = some hb →
    E (VerifyMatch.Match hb.index) = chunk

/-- A concrete strong hash used to state closed counterexamples and witnesses:
the identity on byte buffers, which is trivially injective and therefore
behaves like a collision-free SHA-256 on the inputs involved. -/
def idHash : StrongHash := fun l => l

/-- Rolling-hash vector replay, step 1: fresh window over the bytes of
the string abcd. -/
def rv1 : RollingWindow := add_bytes_at_end RollingWindow.generate [97, 98, 99, 100]

/-- Vector replay, step 2: append the bytes of efgh. -/
def rv2 : RollingWindow := add_bytes_at_end rv1 [101, 102, 103, 104]

/-- Vector replay, step 3: roll_window(1, Some i). -/
def rv3 : RollingWindow := roll_window rv2 1 (some 105)

/-- Vector replay, step 4: roll_window(2, Some j). -/
def rv4 : RollingWindow := roll_window rv3 2 (some 106)

/-- Vector replay, step 5: roll_window(3, Some k). -/
def rv5 : RollingWindow := roll_window rv4 3 (some 107)

/-- Vector replay, step 6: roll_window(4, None). -/
def rv6 : RollingWindow := roll_window rv5 4 none

/-- Window contents for the weak-hash consistency counterexample: 13 bytes,
ten 255s followed by three zeros. Its weighted sum 21675 exceeds the modulus,
so the reduced all_blocks_sum (484) is smaller than window_size * prev
(13 * 255 = 3315) and the u32 subtraction in roll_window underflows. -/
def c1_window : List Nat := [255, 255, 255, 255, 255, 255, 255, 255, 255, 255, 0, 0, 0]

/-- The window contents after rolling c1_window by one byte with next = 0. -/
def c1_rolled : List Nat := [255, 255, 255, 255, 255, 255, 255, 255, 255, 0, 0, 0, 0]

/-- The signature the source builds for old file [0, 1] with block size 1:
a single record covering the whole buffer, keyed by its weak hash 21192,
with index 0 and (identity-modelled) strong hash [0, 1]. -/
def sig01 : FileChunkSignature := ⟨1, [(21192, [⟨0, [0, 1]⟩])]⟩

/-- Claim C7: a fresh RollingWindow after add_bytes_at_end("abcd") has digest
20767574; after a further add_bytes_at_end("efgh") digest 42382804; after
roll_window(1, Some 'i') digest 61454808; and after roll_window(2, Some 'j'),
roll_window(3, Some 'k'), roll_window(4, None) the digest is 128588100 with
window_size 7. -/
theorem rolling_hash_vectors :
    sha256_digest rv1 = 20767574 ∧ sha256_digest rv2 = 42382804 ∧
    sha256_digest rv3 = 61454808 ∧ sha256_digest rv6 = 128588100 ∧
    rv6.window_size = 7 := by decide

/-- Claim C1 (counterexample evaluation): bringing a RollingWindow to window
contents c1_rolled by add_bytes_at_end(c1_window) followed by
roll_window(255, some 0) yields digest 365801337, while the fresh computation
RollingWindow::generate() + add_bytes_at_end(c1_rolled) yields 437702400 —
the rolling weak hash disagrees with the fresh weak hash because the u32
wrapping subtraction is not compatible with reduction mod 21191. -/
theorem rolling_vs_fresh_digest_mismatch :
    sha256_digest (roll_window (add_bytes_at_end RollingWindow.generate c1_window) 255 (some 0))
      = 365801337 ∧
    sha256_digest (add_bytes_at_end RollingWindow.generate c1_rolled) = 437702400 ∧
    (365801337 : Nat) ≠ 437702400 := by decide

/-- Claim C6 (counterexample): from the fresh (reachable) zero state,
roll_window(1, none) sets block_sum to (0 - 1 + 0) in u32 wrapping arithmetic
reduced mod 21191, i.e. (2^32 - 1) % 21191 = 17797 — not the mathematical
non-negative remainder (0 - 1 + 0) mod 21191 = 21190 stated by the claim. -/
theorem roll_recurrence_wrapping_counterexample :
    (roll_window RollingWindow.generate 1 none).block_sum = 17797 ∧
    (17797 : Nat) ≠ 21190 := by decide

set_option maxRecDepth 100000 in
/-- Claim C2 (counterexample evaluation): for an input of length exactly
3 * 64 = 192 bytes and block size 64, the signature records a single block
covering the whole buffer, with index set [0] — not the three records with
indices 0, 1, 2 the claim states. (The inverted slice condition selects the
whole remaining buffer whenever chunk_size < buffer_length.) -/
theorem signature_single_block_anomaly :
    (get_signature idHash (List.replicate 192 65) 64).map sig_indices = some [0] := by
  unfold get_signature get_signature_loop
  decide

/-- Claim C5 (counterexample evaluation): on an empty old file with block size
64, get_signature evaluates the slice &buffer[..64] on an empty buffer and
panics (modelled as none) instead of returning an empty-table signature;
against the empty-table signature the spec prescribes, generate_diff on "abc"
does produce the single record Literal("abc"). -/
theorem empty_old_file_signature_failure :
    get_signature idHash [] 64 = none ∧
    generate_diff idHash [97, 98, 99] ⟨64, []⟩ 64 = [VerifyMatch.NoMatch [97, 98, 99]] := by
  refine ⟨?_, ?_⟩
  · unfold get_signature get_signature_loop
    decide
  · decide

/-- Claim C4 (counterexample evaluation): for A = B = [0, 1] with block size 1
(so K = 2), the delta is the single record Literal([0, 1]) rather than the
claimed [Match 0, Match 1]: the buggy signature stores only the strong hash of
the whole of A, which no window of length at most the block size can match. -/
theorem identity_delta_failure :
    get_signature idHash [0, 1] 1 = some sig01 ∧
    generate_diff idHash [0, 1] sig01 1 = [VerifyMatch.NoMatch [0, 1]] := by
  refine ⟨?_, ?_⟩
  · unfold get_signature get_signature_loop
    decide
  · decide

/-- Claim C10: after every sequence of add_bytes_at_end and roll_window
operations starting from RollingWindow::generate(), block_sum and
all_blocks_sum are each strictly below 21191, hence the unchecked digest
expression block_sum + all_blocks_sum * 21191 is below 2^32 and
sha256_digest computes it exactly (no u32 overflow is reachable). -/
theorem digest_no_overflow (s : RollingWindow) (h : Reachable s) :
    s.block_sum < 21191 ∧ s.all_blocks_sum < 21191 ∧
    s.block_sum + s.all_blocks_sum * 21191 < 4294967296 ∧
    sha256_digest s = s.block_sum + s.all_blocks_sum * 21191 := by
  have hb : s.block_sum < 21191 ∧ s.all_blocks_sum < 21191 := by
    induction h with
    | generate => exact ⟨by decide, by decide⟩
    | add s buf _ _ =>
      refine ⟨?_, ?_⟩ <;>
        simp only [add_bytes_at_end, LARGE_PRIME_MOD] <;>
        exact Nat.mod_lt _ (by decide)
    | roll s prev next _ _ =>
      refine ⟨?_, ?_⟩ <;>
        simp only [roll_window, LARGE_PRIME_MOD] <;>
        exact Nat.mod_lt _ (by decide)
  obtain ⟨h1, h2⟩ := hb
  have h3 : s.block_sum + s.all_blocks_sum * 21191 < 4294967296 := by
    have := Nat.mul_le_mul_right 21191 (Nat.le_of_lt_succ h2)
    omega
  refine ⟨h1, h2, h3, ?_⟩
  simp only [sha256_digest, wadd, wmul, LARGE_PRIME_MOD, U32]
  have e1 : s.all_blocks_sum * 21191 % 4294967296 = s.all_blocks_sum * 21191 :=
    Nat.mod_eq_of_lt (by omega)
  rw [e1, Nat.mod_eq_of_lt h3]

/-- Witness for digest_no_overflow: the fresh state is reachable and satisfies
the invariant. -/
theorem digest_no_overflow_witness :
    RollingWindow.generate.block_sum < 21191 ∧
    RollingWindow.generate.all_blocks_sum < 21191 ∧
    RollingWindow.generate.block_sum + RollingWindow.generate.all_blocks_sum * 21191
      < 4294967296 ∧
    sha256_digest RollingWindow.generate
      = RollingWindow.generate.block_sum + RollingWindow.generate.all_blocks_sum * 21191 :=
  digest_no_overflow RollingWindow.generate Reachable.generate

/-- Taking a prefix and dropping as many bytes as were taken recovers the
buffer. -/
theorem chunk_append_drop (k : Nat) (l : List Nat) :
    l.take k ++ l.drop ((l.take k).length) = l := by
  rcases le_or_lt k l.length with h | h
  · have hk : (l.take k).length = k := by
      simp [List.length_take]
      omega
    rw [hk, List.take_append_drop]
  · have h2 : l.take k = l := List.take_of_length_le (Nat.le_of_lt h)
    simp [h2]

/-- One unfolding of the rolling-search loop on a non-empty buffer, once the
`next` byte has been resolved. -/
theorem rolling_search_cons (sha256 : StrongHash) (sig : FileChunkSignature)
    (chunk_size n : Nat) (rs : RollingWindow) (acs prev : Nat) (buf1 d : List Nat)
    (next : Option Nat)
    (hnext : (if pointer_at_last_chunk acs (prev :: buf1).length then some none
        else match (prev :: buf1)[chunk_size]? with
          | some b => some (some b)
          | none => none) = some next) :
    rolling_search sha256 sig chunk_size (n + 1) rs acs (prev :: buf1) d =
      match match_index_and_checksum sha256 sig
          (sha256_digest (roll_window rs prev next))
          (if chunk_size < buf1.length then buf1.take chunk_size
            else buf1.take buf1.length) with
      | some hb =>
        some ([VerifyMatch.NoMatch (d ++ [prev]), VerifyMatch.Match hb.index],
          buf1.drop (if chunk_size < buf1.length then buf1.take chunk_size
            else buf1.take buf1.length).length)
      | none =>
        rolling_search sha256 sig chunk_size n (roll_window rs prev next)
          (if chunk_size < buf1.length then buf1.take chunk_size
            else buf1.take buf1.length).length buf1 (d ++ [prev]) := by
  conv_lhs => rw [rolling_search]
  rw [hnext]

/-- Full specification of the rolling-search loop: with fuel exceeding the
buffer length it returns (no fuel exhaustion, no index panic), it consumes at
least one byte of a non-empty buffer, every literal it emits is non-empty,
and — whenever matches expand correctly — the expansion of its records
followed by the remaining buffer equals the accumulated literal bytes followed
by the input buffer. -/
theorem rolling_search_spec (sha256 : StrongHash) (sig : FileChunkSignature)
    (chunk_size : Nat) (E : VerifyMatch → List Nat)
    (hE : ∀ l, E (VerifyMatch.NoMatch l) = l) :
    ∀ (fuel : Nat) (buf : List Nat) (rs : RollingWindow) (acs : Nat) (d : List Nat),
      buf.length < fuel → acs = min chunk_size buf.length →
      ∃ recs buf2,
        rolling_search sha256 sig chunk_size fuel rs acs buf d = some (recs, buf2) ∧
        buf2.length ≤ buf.length ∧
        (buf ≠ [] → buf2.length < buf.length) ∧
        (∀ l, VerifyMatch.NoMatch l ∈ recs → l ≠ []) ∧
        (MatchesE sha256 sig chunk_size E → (recs.map E).flatten ++ buf2 = d ++ buf) := by
  intro fuel
  induction fuel with
  | zero => intro buf rs acs d hf _; exact absurd hf (Nat.not_lt_zero _)
  | succ n ihn =>
    intro buf rs acs d hf hacs
    cases buf with
    | nil =>
      have hacs0 : acs = 0 := by simpa using hacs
      by_cases hd : d = []
      · subst hd
        refine ⟨[], [], ?_, Nat.le_refl _, by simp, by simp, ?_⟩
        · simp [rolling_search, pointer_at_last_chunk, hacs0]
        · intro _; simp
      · refine ⟨[VerifyMatch.NoMatch d], [], ?_, Nat.le_refl _, by simp, ?_, ?_⟩
        · simp [rolling_search, pointer_at_last_chunk, hacs0, hd]
        · intro l hl
          simp only [List.mem_singleton, VerifyMatch.NoMatch.injEq] at hl
          subst hl; exact hd
        · intro _; simp [hE]
    | cons prev buf1 =>
      have hfl : buf1.length < n := by
        simp only [List.length_cons] at hf; omega
      -- resolve the next byte
      have hnext : ∃ next, (if pointer_at_last_chunk acs (prev :: buf1).length then some none
          else match (prev :: buf1)[chunk_size]? with
            | some b => some (some b)
            | none => none) = some next := by
        by_cases hp : acs = (prev :: buf1).length
        · exact ⟨none, by simp [pointer_at_last_chunk, hp]⟩
        · have hlt : chunk_size < (prev :: buf1).length := by
            simp only [List.length_cons] at hp hacs ⊢; omega
          refine ⟨some ((prev :: buf1).get ⟨chunk_size, hlt⟩), ?_⟩
          have hfalse : pointer_at_last_chunk acs (buf1.length + 1) = false := by
            simp only [pointer_at_last_chunk, beq_eq_false_iff_ne, ne_eq]
            simpa using hp
          simp [hfalse, List.getElem?_eq_getElem hlt]
      obtain ⟨next, hnx⟩ := hnext
      rw [rolling_search_cons sha256 sig chunk_size n rs acs prev buf1 d next hnx]
      set ch := if chunk_size < buf1.length then buf1.take chunk_size
        else buf1.take buf1.length with hch
      have hclen : ch.length = min chunk_size buf1.length := by
        rw [hch]; split
        · simp [List.length_take]
        · simp [List.length_take]; omega
      have hsplit : ch ++ buf1.drop ch.length = buf1 := by
        rw [hch]; split
        · exact chunk_append_drop chunk_size buf1
        · exact chunk_append_drop buf1.length buf1
      cases hm : match_index_and_checksum sha256 sig
          (sha256_digest (roll_window rs prev next)) ch with
      | some hb =>
        refine ⟨[VerifyMatch.NoMatch (d ++ [prev]), VerifyMatch.Match hb.index],
          buf1.drop ch.length, by simp, ?_, ?_, ?_, ?_⟩
        · simp only [List.length_drop, List.length_cons]; omega
        · intro _; simp only [List.length_drop, List.length_cons]; omega
        · intro l hl
          simp only [List.mem_cons, List.not_mem_nil, or_false,
            VerifyMatch.NoMatch.injEq] at hl
          rcases hl with h | h
          · subst h; simp
          · simp at h
        · intro hM
          have hchle : ch.length ≤ chunk_size := by omega
          have hEc := hM _ ch hb hchle hm
          simp only [List.map_cons, List.map_nil, List.flatten, hE, hEc, List.append_nil]
          rw [List.append_assoc, hsplit]
          simp
      | none =>
        obtain ⟨recs, buf2, hA, hB, hC, hD, hEx⟩ :=
          ihn buf1 (roll_window rs prev next) ch.length (d ++ [prev]) hfl hclen
        refine ⟨recs, buf2, by simp [hA], ?_, ?_, hD, ?_⟩
        · simp only [List.length_cons]; omega
        · intro _; simp only [List.length_cons]; omega
        · intro hM
          rw [hEx hM]
          simp

/-- Full specification of the outer `generate_diff` loop: with fuel exceeding
the buffer length it returns, every literal it emits is non-empty, and — for a
positive block size and an expansion function that expands matches correctly —
the expansion of the emitted delta equals the input buffer. -/
theorem generate_diff_loop_spec (sha256 : StrongHash) (sig : FileChunkSignature)
    (chunk_size : Nat) (E : VerifyMatch → List Nat)
    (hE : ∀ l, E (VerifyMatch.NoMatch l) = l) :
    ∀ (fuel : Nat) (buf : List Nat), buf.length < fuel →
      ∃ recs,
        generate_diff_loop sha256 sig chunk_size fuel buf = some recs ∧
        (∀ l, VerifyMatch.NoMatch l ∈ recs → l ≠ []) ∧
        (0 < chunk_size → MatchesE sha256 sig chunk_size E →
          (recs.map E).flatten = buf) := by
  intro fuel
  induction fuel with
  | zero => intro buf hf; exact absurd hf (Nat.not_lt_zero _)
  | succ n ihn =>
    intro buf hf
    set ch := if chunk_size ≤ buf.length then buf.take chunk_size
      else buf.take buf.length with hch
    have hclen : ch.length = min chunk_size buf.length := by
      rw [hch]; split
      · simp [List.length_take]
      · simp [List.length_take]; omega
    have hsplit : ch ++ buf.drop ch.length = buf := by
      rw [hch]; split
      · exact chunk_append_drop chunk_size buf
      · exact chunk_append_drop buf.length buf
    by_cases h0 : ch.length = 0
    · refine ⟨[], ?_, by simp, ?_⟩
      · simp only [generate_diff_loop]
        rw [← hch]
        simp [h0]
      · intro hcs _
        have hlen0 : buf.length = 0 := by omega
        rw [List.length_eq_zero] at hlen0
        simp [hlen0]
    · cases hm : match_index_and_checksum sha256 sig
          (sha256_digest (add_bytes_at_end RollingWindow.generate ch)) ch with
      | some hb =>
        by_cases hlast : ch.length = buf.length
        · have hpt : pointer_at_last_chunk ch.length buf.length = true := by
            simp [pointer_at_last_chunk, hlast]
          refine ⟨[VerifyMatch.Match hb.index], ?_, ?_, ?_⟩
          · simp only [generate_diff_loop]
            rw [← hch]
            simp [h0, hm, hpt]
          · intro l hl
            rcases List.mem_cons.mp hl with h | h
            · simp at h
            · simp at h
          · intro hcs hM
            have hchle : ch.length ≤ chunk_size := by omega
            have hEc := hM _ ch hb hchle hm
            have hcb : ch = buf :=
              calc ch = ch ++ [] := by simp
                _ = ch ++ buf.drop ch.length := by rw [hlast, List.drop_length]
                _ = buf := hsplit
            simp [hEc, hcb]
        · have hpt : pointer_at_last_chunk ch.length buf.length = false := by
            simp only [pointer_at_last_chunk, beq_eq_false_iff_ne, ne_eq]
            exact hlast
          have hdl : (buf.drop ch.length).length < n := by
            simp only [List.length_drop]; omega
          obtain ⟨recs, hA, hD, hEx⟩ := ihn (buf.drop ch.length) hdl
          refine ⟨VerifyMatch.Match hb.index :: recs, ?_, ?_, ?_⟩
          · simp only [generate_diff_loop]
            rw [← hch]
            simp [h0, hm, hpt, hA]
          · intro l hl
            rcases List.mem_cons.mp hl with h | h
            · simp at h
            · exact hD l h
          · intro hcs hM
            have hchle : ch.length ≤ chunk_size := by omega
            have hEc := hM _ ch hb hchle hm
            simp only [List.map_cons, List.flatten_cons]
            rw [hEc, hEx hcs hM, hsplit]
      | none =>
        have hbne : buf ≠ [] := by
          intro hb0
          apply h0
          rw [hclen, hb0]
          simp
        obtain ⟨recs1, buf2, hA1, hB1, hC1, hD1, hE1⟩ :=
          rolling_search_spec sha256 sig chunk_size E hE (buf.length + 1) buf
            (add_bytes_at_end RollingWindow.generate ch) ch.length []
            (Nat.lt_succ_self _) hclen
        have hdl2 : buf2.length < n := by
          have := hC1 hbne
          omega
        obtain ⟨recs2, hA2, hD2, hEx2⟩ := ihn buf2 hdl2
        refine ⟨recs1 ++ recs2, ?_, ?_, ?_⟩
        · simp only [generate_diff_loop]
          rw [← hch]
          simp [h0, hm, hA1, hA2]
        · intro l hl
          rcases List.mem_append.mp hl with h | h
          · exact hD1 l h
          · exact hD2 l h
        · intro hcs hM
          have e1 := hE1 hM
          simp only [List.nil_append] at e1
          simp only [List.map_append, List.flatten_append]
          rw [hEx2 hcs hM]
          exact e1

/-- Characterization of any successfully built signature (for a positive
block size): the block size is at most the buffer length and the table holds
exactly one record — index 0, covering the whole buffer — keyed by the
buffer's weak hash. (This is the concrete shape produced by the source's
inverted slice condition.) -/
theorem get_signature_char (sha256 : StrongHash) (A : List Nat) (bs : Nat) (hbs : 0 < bs)
    (sig : FileChunkSignature) (hsig : get_signature sha256 A bs = some sig) :
    bs ≤ A.length ∧
    sig = ⟨bs, [(rolling_window_checksum A, [⟨0, sha256 A⟩])]⟩ := by
  unfold get_signature at hsig
  rcases hloop : get_signature_loop sha256 bs A 0 [] with - | m
  · rw [hloop] at hsig; exact Option.noConfusion hsig
  · rw [hloop] at hsig
    simp only [Option.map_some', Option.some.injEq] at hsig
    unfold get_signature_loop at hloop
    by_cases h1 : bs < A.length
    · have hne : ¬(A.length = 0) := by omega
      have hpt : pointer_at_last_chunk A.length A.length = true := by
        simp [pointer_at_last_chunk]
      rw [dif_pos h1] at hloop
      simp only [List.take_length, hne, dite_false, hpt, if_true,
        Option.some.injEq, insertRecord] at hloop
      subst hloop
      exact ⟨by omega, by rw [← hsig]⟩
    · by_cases h2 : bs ≤ A.length
      · have hba : bs = A.length := by omega
        subst hba
        have hne : ¬(A.length = 0) := by omega
        have hpt : pointer_at_last_chunk A.length A.length = true := by
          simp [pointer_at_last_chunk]
        rw [dif_neg h1, dif_pos h2] at hloop
        simp only [List.take_length, hne, dite_false, hpt, if_true,
          Option.some.injEq, insertRecord] at hloop
        subst hloop
        exact ⟨by omega, by rw [← hsig]⟩
      · rw [dif_neg h1, dif_neg h2] at hloop
        cases hloop

/-- For any injective strong hash, expanding a `Match` record emitted against
a successfully built signature reproduces the matched window: the only record
in the table carries the strong hash of the whole of `A`, so a hit forces the
window to equal `A`, which is then exactly block 0 of `A`. -/
theorem matches_expandRecord (sha256 : StrongHash) (hinj : Function.Injective sha256)
    (A : List Nat) (bs : Nat) :
    MatchesE sha256 ⟨bs, [(rolling_window_checksum A, [⟨0, sha256 A⟩])]⟩ bs
      (expandRecord A bs) := by
  intro key chunk hb hlen hmatch
  unfold match_index_and_checksum block_chunk_hashes at hmatch
  rcases hfind : List.find? (fun e => e.1 == key)
      ([(rolling_window_checksum A, [(⟨0, sha256 A⟩ : BlockChunkHashes)])]) with - | e
  · rw [hfind] at hmatch
    simp at hmatch
  · rw [hfind] at hmatch
    have hmem := List.mem_of_find?_eq_some hfind
    simp only [List.mem_singleton] at hmem
    subst hmem
    simp only [Option.map_some'] at hmatch
    rcases hfind2 : List.find? (fun h => h.hash == sha256 chunk)
        ([(⟨0, sha256 A⟩ : BlockChunkHashes)]) with - | f
    · rw [hfind2] at hmatch
      simp at hmatch
    · rw [hfind2] at hmatch
      have hpred := List.find?_some hfind2
      have hmem2 := List.mem_of_find?_eq_some hfind2
      simp only [List.mem_singleton] at hmem2
      subst hmem2
      simp only [Option.some.injEq] at hmatch
      subst hmatch
      have hac : A = chunk := hinj (beq_iff_eq.mp hpred)
      show (A.drop (bs * 0)).take bs = chunk
      rw [Nat.mul_zero, List.drop_zero]
      rw [List.take_of_length_le (by rw [hac]; exact hlen)]
      exact hac

/-- Claim C3: delta soundness. For every injective strong hash, every old
buffer A and positive block size bs for which the signature is successfully
built, and every new buffer B, expanding the delta produced by generate_diff
(each Match i becoming the bytes of block i of A, literals taken verbatim)
reconstructs B exactly. -/
theorem delta_soundness (sha256 : StrongHash) (hinj : Function.Injective sha256)
    (A : List Nat) (bs : Nat) (hbs : 0 < bs) (sig : FileChunkSignature)
    (hsig : get_signature sha256 A bs = some sig) (B : List Nat) :
    expandDelta A bs (generate_diff sha256 B sig bs) = B := by
  obtain ⟨hba, hform⟩ := get_signature_char sha256 A bs hbs sig hsig
  obtain ⟨recs, hA, -, hEx⟩ := generate_diff_loop_spec sha256 sig bs (expandRecord A bs)
    (fun _ => rfl) (B.length + 1) B (Nat.lt_succ_self _)
  unfold generate_diff expandDelta
  rw [hA, Option.getD_some]
  refine hEx hbs ?_
  rw [hform]
  exact matches_expandRecord sha256 hinj A bs

/-- Witness for delta_soundness: with the identity strong hash, A = [0, 1],
block size 1 and B = [7], the produced delta expands back to [7]. -/
theorem delta_soundness_witness :
    expandDelta [0, 1] 1
      (generate_diff idHash [7] ⟨1, [(21192, [⟨0, [0, 1]⟩])]⟩ 1) = [7] :=
  delta_soundness idHash (fun _ _ h => h) [0, 1] 1 (by decide)
    ⟨1, [(21192, [⟨0, [0, 1]⟩])]⟩
    (by unfold get_signature get_signature_loop; decide) [7]

/-- Claim C8: termination of the delta scan. For every strong hash, new-file
buffer and signature with positive block size, the generate_diff loop, given
one unit of fuel per outer iteration beyond the buffer length, returns a
result (it neither exhausts the fuel nor reaches the modelled index panic):
each iteration consumes at least one byte or is the final one. -/
theorem generate_diff_terminates (sha256 : StrongHash) (buf : List Nat)
    (sig : FileChunkSignature) (hbs : 0 < sig.block_chunk_size) :
    (generate_diff_loop sha256 sig sig.block_chunk_size (buf.length + 1) buf).isSome
      = true := by
  obtain ⟨recs, hA, -, -⟩ := generate_diff_loop_spec sha256 sig sig.block_chunk_size
    (fun r => match r with | VerifyMatch.Match _ => [] | VerifyMatch.NoMatch l => l)
    (fun _ => rfl) (buf.length + 1) buf (Nat.lt_succ_self _)
  rw [hA]
  rfl

/-- Witness for generate_diff_terminates at a concrete input. -/
theorem generate_diff_terminates_witness :
    0 < (⟨1, []⟩ : FileChunkSignature).block_chunk_size ∧
    (generate_diff_loop idHash ⟨1, []⟩ (⟨1, []⟩ : FileChunkSignature).block_chunk_size
      (([5] : List Nat).length + 1) [5]).isSome = true :=
  ⟨by decide, generate_diff_terminates idHash [5] ⟨1, []⟩ (by decide)⟩

/-- Claim C9: every Literal (NoMatch) record returned by generate_diff, for
any strong hash, buffer, signature and chunk size, carries a non-empty byte
payload. -/
theorem literals_nonempty (sha256 : StrongHash) (buf : List Nat)
    (sig : FileChunkSignature) (chunk_size : Nat) (l : List Nat)
    (hmem : VerifyMatch.NoMatch l ∈ generate_diff sha256 buf sig chunk_size) :
    l ≠ [] := by
  unfold generate_diff at hmem
  obtain ⟨recs, hA, hD, -⟩ := generate_diff_loop_spec sha256 sig chunk_size
    (fun r => match r with | VerifyMatch.Match _ => [] | VerifyMatch.NoMatch l => l)
    (fun _ => rfl) (buf.length + 1) buf (Nat.lt_succ_self _)
  rw [hA, Option.getD_some] at hmem
  exact hD l hmem

/-- Witness for literals_nonempty: generate_diff against an empty-table
signature emits the literal [5], which is non-empty. -/
theorem literals_nonempty_witness :
    VerifyMatch.NoMatch [5] ∈ generate_diff idHash [5] ⟨1, []⟩ 1 ∧
    ([5] : List Nat) ≠ [] :=
  ⟨by decide, literals_nonempty idHash [5] ⟨1, []⟩ 1 [5] (by decide)⟩

/-- Claim C6 (amended): roll_window(prev, next) computes
a' = (a - prev + (next or 0)) mod 21191 and
b' = (b - n * prev + a') mod 21191 (with the already-updated a') as
mathematical non-negative remainders provided no u32 underflow occurs —
prev ≤ a + next, n * prev ≤ b + a', and n ≥ 1 when next is absent, for
in-range byte and state values; n is decremented by 1 exactly when next is
absent and is unchanged otherwise. (In general the source computes with u32
wrapping arithmetic before the mod, which differs from the mathematical
remainder when a subtraction underflows — see the counterexample.) -/
theorem roll_recurrence_no_underflow (s : RollingWindow) (prev : Nat) (next : Option Nat)
    (hbs : s.block_sum < 21191) (habs : s.all_blocks_sum < 21191)
    (hws : s.window_size < 21191) (hp : prev < 256) (hn : next.getD 0 < 256)
    (hprev : prev ≤ s.block_sum + next.getD 0)
    (hsub : s.window_size * prev ≤
      s.all_blocks_sum + (s.block_sum + next.getD 0 - prev) % 21191)
    (hwz : next = none → 1 ≤ s.window_size) :
    (roll_window s prev next).block_sum = (s.block_sum + next.getD 0 - prev) % 21191 ∧
    (roll_window s prev next).all_blocks_sum
      = (s.all_blocks_sum + (s.block_sum + next.getD 0 - prev) % 21191
          - s.window_size * prev) % 21191 ∧
    (roll_window s prev next).window_size
      = (if next = none then s.window_size - 1 else s.window_size) := by
  have hk : s.window_size * prev ≤ 21191 * 256 :=
    Nat.mul_le_mul (Nat.le_of_lt hws) (Nat.le_of_lt hp)
  have h1 : (roll_window s prev next).block_sum
      = (s.block_sum + next.getD 0 - prev) % 21191 := by
    cases next with
    | none =>
      simp only [Option.getD_none] at hprev
      simp only [roll_window, wadd, wsub, wmul, U32, LARGE_PRIME_MOD,
        Option.getD_none] at hprev ⊢
      omega
    | some v =>
      simp only [Option.getD_some] at hprev hn
      simp only [roll_window, wadd, wsub, wmul, U32, LARGE_PRIME_MOD,
        Option.getD_some] at hprev ⊢
      omega
  refine ⟨h1, ?_, ?_⟩
  · have hshow : (roll_window s prev next).all_blocks_sum
        = (wadd (wsub s.all_blocks_sum (wmul s.window_size prev))
            ((roll_window s prev next).block_sum)) % LARGE_PRIME_MOD := rfl
    rw [hshow, h1]
    simp only [wadd, wsub, wmul, U32, LARGE_PRIME_MOD]
    have hNB : (s.block_sum + next.getD 0 - prev) % 21191 < 21191 :=
      Nat.mod_lt _ (by norm_num)
    generalize hgb : (s.block_sum + next.getD 0 - prev) % 21191 = nb at hsub hNB ⊢
    generalize hgk : s.window_size * prev = k at hsub hk ⊢
    omega
  · cases next with
    | none =>
      have hws1 : 1 ≤ s.window_size := hwz rfl
      rw [if_pos rfl]
      simp only [roll_window, Option.isNone_none, if_true, wsub, U32]
      omega
    | some v =>
      rw [if_neg (by simp)]
      simp [roll_window]

/-- Witness for roll_recurrence_no_underflow at a concrete in-range state. -/
theorem roll_recurrence_no_underflow_witness :
    (roll_window ⟨100, 200, 3⟩ 5 (some 7)).block_sum
        = (100 + (some 7 : Option Nat).getD 0 - 5) % 21191 ∧
    (roll_window ⟨100, 200, 3⟩ 5 (some 7)).all_blocks_sum
        = (200 + (100 + (some 7 : Option Nat).getD 0 - 5) % 21191 - 3 * 5) % 21191 ∧
    (roll_window ⟨100, 200, 3⟩ 5 (some 7)).window_size
        = (if (some 7 : Option Nat) = none then 3 - 1 else 3) :=
  roll_recurrence_no_underflow ⟨100, 200, 3⟩ 5 (some 7) (by decide) (by decide)
    (by decide) (by decide) (by decide) (by decide) (by decide) (fun h => nomatch h)
